import Mathlib

/-!
# Verification of the takumi JSX-to-render-tree compiler

Shallow embedding of `src/takumi-helpers/src/jsx/jsx.ts`,
`src/takumi-helpers/src/jsx/utils.ts` and the node builders of
`src/takumi-helpers/src/helpers.ts`, together with theorems settling the
claims about `fromJsx` and its helpers.

Modelling conventions:
* JavaScript runtime values that can flow through `fromJsxInternal` are the
  inductive `JsxValue`.  Plain objects are `JsxValue.obj` (a finite list of
  own enumerable string keys); objects that carry a `type` key (React
  elements) are `JsxValue.elem`.
* `element.type` values are `ElemType`: a string tag, the React fragment
  symbol, a forwardRef / memo wrapper object, a function component, or some
  other object.  Function components and forwardRef render functions are
  modelled as closures that return a fixed element (the shallow embedding of
  invoking them on the element's props).
* JS numbers are modelled as `Int`; `NaN` results of `Number(...)` are
  `Option.none`.
* Asynchrony: a resolved server-component promise is `JsxValue.promise v`;
  awaiting it yields `v`.  Failure of the compiler (the `throw` in
  `createImageElement`) is the `Except` monad, so an error aborts the whole
  compilation and no partial tree is returned.
-/

set_option maxHeartbeats 1000000
set_option linter.unusedVariables false
set_option linter.unnecessarySeqFocus false

namespace Takumi

mutual

/-- The possible runtime values of `element.type` on a React-element-like
object (see `ReactElementLike` in `src/takumi-helpers/src/jsx/utils.ts`):
a string tag, the `react.fragment` symbol, a function component, a
`forwardRef` wrapper object, a `memo` wrapper object, or some other object.
Function components and `forwardRef.render` are modelled by the element they
return when invoked. -/
inductive ElemType where
  | tag (name : String)
  | fragmentSym
  | otherObj
  | fn (result : JsxValue)
  | forwardRef (result : JsxValue)
  | memo (inner : ElemType)

/-- A JavaScript value as classified by `fromJsxInternal`
(`src/takumi-helpers/src/jsx/jsx.ts` lines 78-103): `undefined`, `null`,
booleans, strings, numbers, promises, iterables (arrays and other
iterables), plain objects, and React-element-like objects (objects carrying
a `type` key, split off as their own constructor). -/
inductive JsxValue where
  | undefined
  | jsNull
  | bool (b : Bool)
  | str (s : String)
  | num (n : Int)
  | promise (v : JsxValue)
  | iter (xs : List JsxValue)
  | obj (fields : List (String × JsxValue))
  | elem (ty : ElemType) (props : JsxValue)

end

mutual

/-- Structural size of a JS value (termination measure for the tree
resolver). -/
def JsxValue.jsize : JsxValue → Nat
  | .promise v => v.jsize + 1
  | .iter xs => jsizeList xs + 1
  | .obj fields => jsizeFields fields + 1
  | .elem t p => t.tsize + p.jsize + 1
  | _ => 1

/-- Structural size of an element type. -/
def ElemType.tsize : ElemType → Nat
  | .fn r => r.jsize + 1
  | .forwardRef r => r.jsize + 1
  | .memo t => t.tsize + 1
  | _ => 1

/-- Structural size of a list of JS values. -/
def jsizeList : List JsxValue → Nat
  | [] => 0
  | x :: xs => x.jsize + jsizeList xs + 1

/-- Structural size of an object's field list. -/
def jsizeFields : List (String × JsxValue) → Nat
  | [] => 0
  | (_, v) :: fs => v.jsize + jsizeFields fs + 1

end

/-- The error thrown by `createImageElement`
(jsx.ts line 264, message: Image element must have a src prop); the spec calls
it `MissingSource`. -/
inductive JsError where
  | missingSource
deriving DecidableEq

/-- JS-number results: `none` models `NaN`. -/
abbrev JSNum := Option Int

/-- A render node (`src/takumi-helpers/src/types.ts`): the tagged union of
`ContainerNode`, `TextNode` and `ImageNode`.  Optional fields are `Option`;
`style` holds the raw style object attached by the builders (a `JsxValue`,
normally a `JsxValue.obj` style map), `preset` likewise holds the preset
style object looked up from the preset table. -/
inductive Node where
  | container (children : Option (List Node)) (preset : Option JsxValue)
      (style : Option JsxValue) (tw : Option String)
  | text (txt : String) (preset : Option JsxValue) (style : Option JsxValue)
      (tw : Option String)
  | image (src : JsxValue) (width : Option JSNum) (height : Option JSNum)
      (preset : Option JsxValue) (style : Option JsxValue) (tw : Option String)

/-- `node.preset`. -/
def Node.preset : Node → Option JsxValue
  | .container _ p _ _ => p
  | .text _ p _ _ => p
  | .image _ _ _ p _ _ => p

/-- `node.style`. -/
def Node.style : Node → Option JsxValue
  | .container _ _ s _ => s
  | .text _ _ s _ => s
  | .image _ _ _ _ s _ => s

/-- `node.tw`. -/
def Node.tw : Node → Option String
  | .container _ _ _ t => t
  | .text _ _ _ t => t
  | .image _ _ _ _ _ t => t

/-! ## Property access on JS values -/

/-- Look a key up in an object's field list; absent keys read as
`undefined`. -/
def fieldsGet : List (String × JsxValue) → String → JsxValue
  | [], _ => .undefined
  | (k, v) :: rest, key => if k = key then v else fieldsGet rest key

/-- `props[key]` where `props` is any JS value: reads a field of a plain
object, anything else reads as `undefined`. -/
def propsGet : JsxValue → String → JsxValue
  | .obj fields, key => fieldsGet fields key
  | _, _ => .undefined

/-- `key in obj` on a field list (true even when the stored value is
`undefined`). -/
def fieldsHas : List (String × JsxValue) → String → Bool
  | [], _ => false
  | (k, _) :: rest, key => k == key || fieldsHas rest key

/-- The guard `typeof props === "object" && props !== null && key in props`
used throughout jsx.ts before reading a prop. -/
def propsHasKey : JsxValue → String → Bool
  | .obj fields, key => fieldsHas fields key
  | _, _ => false

/-- `typeof v === "object"` (true for `null`, promises, arrays/iterables,
plain objects and element objects). -/
def isObjectType : JsxValue → Bool
  | .jsNull => true
  | .promise _ => true
  | .iter _ => true
  | .obj _ => true
  | .elem _ _ => true
  | _ => false

/-- `Symbol.iterator in v`: true for arrays/iterables and for strings
(strings are iterable in JS, which matters for the `typeof === "object"`
guard in `fromJsxInternal`). -/
def jsHasIteratorSymbol : JsxValue → Bool
  | .iter _ => true
  | .str _ => true
  | _ => false

/-- `v === null`. -/
def isJsNull : JsxValue → Bool
  | .jsNull => true
  | _ => false

/-- `v instanceof Promise`. -/
def isPromise : JsxValue → Bool
  | .promise _ => true
  | _ => false

/-- The value a promise resolves to (identity on non-promises). -/
def promiseValue : JsxValue → JsxValue
  | .promise v => v
  | v => v

/-- `element === undefined || element === null || element === false`, the
first check of `fromJsxInternal` (jsx.ts line 82). -/
def isEmptyValue : JsxValue → Bool
  | .undefined => true
  | .jsNull => true
  | .bool false => true
  | _ => false

/-- JS truthiness. -/
def jsTruthy : JsxValue → Bool
  | .undefined => false
  | .jsNull => false
  | .bool b => b
  | .str s => s != ""
  | .num n => n != 0
  | _ => true

/-- `Object.keys(v).length`: the number of own enumerable keys of a value
(0 for primitives; element objects expose their `type` and `props` keys). -/
def ownKeyCount : JsxValue → Nat
  | .obj fields => fields.length
  | .iter xs => xs.length
  | .elem _ _ => 2
  | _ => 0

/-- `Number(v)` with `none` for `NaN`; width/height coercion in
`createImageElement`/`createSvgElement`.  String parsing covers integer
literals; non-numeric strings are `NaN`. -/
def jsNumber : JsxValue → JSNum
  | .undefined => none
  | .jsNull => some 0
  | .bool b => some (if b then 1 else 0)
  | .num n => some n
  | .str s => if s.trim = "" then some 0 else s.trim.toInt?
  | _ => none

mutual

/-- `String(v)`: JS string coercion, the fallback of `fromJsxInternal`
(jsx.ts line 99). -/
def jsString : JsxValue → String
  | .undefined => "undefined"
  | .jsNull => "null"
  | .bool b => if b then "true" else "false"
  | .str s => s
  | .num n => toString n
  | .promise _ => "[object Promise]"
  | .obj _ => "[object Object]"
  | .elem _ _ => "[object Object]"
  | .iter xs => jsArrayJoin xs
termination_by v => 2 * sizeOf v
decreasing_by all_goals (simp_wf; try omega)

/-- `Array.prototype.toString`: elements joined with commas. -/
def jsArrayJoin : List JsxValue → String
  | [] => ""
  | [x] => jsArrayElemString x
  | x :: rest => jsArrayElemString x ++ "," ++ jsArrayJoin rest
termination_by xs => 2 * sizeOf xs
decreasing_by all_goals (simp_wf; try omega)

/-- One array element under `join`: `null` and `undefined` print empty. -/
def jsArrayElemString : JsxValue → String
  | .undefined => ""
  | .jsNull => ""
  | v => jsString v
termination_by v => 2 * sizeOf v + 1
decreasing_by all_goals (simp_wf; try omega)

end

/-! ## Element classification (`src/takumi-helpers/src/jsx/utils.ts`) -/

/-- `isValidElement`: `typeof object && object !== null && "type" in object`.
Objects carrying a `type` key are exactly the `JsxValue.elem` values of the
model. -/
def isValidElement : JsxValue → Bool
  | .elem _ _ => true
  | _ => false

/-- `isFunctionComponent`: `typeof value === "function"` on an element
type. -/
def isFunctionComponent : ElemType → Bool
  | .fn _ => true
  | _ => false

/-- `isReactForwardRef`: the type object carries
`$$typeof === Symbol.for("react.forward_ref")` (and a `render` function). -/
def isReactForwardRef : ElemType → Bool
  | .forwardRef _ => true
  | _ => false

/-- `isReactMemo`: the type object carries
`$$typeof === Symbol.for("react.memo")` (and an inner `type`). -/
def isReactMemo : ElemType → Bool
  | .memo _ => true
  | _ => false

/-- `isReactFragment`: `element.type === Symbol.for("react.fragment")`. -/
def isReactFragment : ElemType → Bool
  | .fragmentSym => true
  | _ => false

/-- The void-element set of utils.ts line 13. -/
def voidElements : List String := ["head", "meta", "link", "style", "script"]

/-- `isHtmlVoidElement`: the tag is in the void set. -/
def isHtmlVoidElement : ElemType → Bool
  | .tag name => voidElements.contains name
  | _ => false

/-- `isHtmlElement(element, type)`: `element.type === type`. -/
def isHtmlElement (ty : ElemType) (name : String) : Bool :=
  match ty with
  | .tag t => t == name
  | _ => false

/-! ## Options and the preset table -/

/-- A preset table: a read-only map from tag name to a style object (the
shape of `defaultStylePresets`). -/
abbrev PresetTable := List (String × JsxValue)

/-- `table[key]` with `key in table` presence. -/
def tableGet : PresetTable → String → Option JsxValue
  | [], _ => none
  | (k, v) :: rest, key => if k = key then some v else tableGet rest key

/-- `presets?.[tag]` (used for `options.presets?.span`). -/
def presetLookup (presets : Option PresetTable) (tag : String) : Option JsxValue :=
  match presets with
  | some table => tableGet table tag
  | none => none

/-- Modelled from the spec: the default Chromium-derived preset table
`defaultStylePresets` (its source file
`src/takumi-helpers/src/jsx/style-presets.ts` is not under `src/`).  Per
spec §6 it is a read-only mapping from tag name to style map, with an entry
for plain-text spans; representative entries reproduce the Chromium values
quoted around it. -/
def defaultStylePresets : PresetTable :=
  [ ("p", .obj [("marginTop", .str "1em"), ("marginBottom", .str "1em"),
      ("display", .str "block")]),
    ("h1", .obj [("fontSize", .str "2em"), ("marginTop", .str "0.67em"),
      ("marginBottom", .str "0.67em"), ("fontWeight", .str "bold"),
      ("display", .str "block")]),
    ("strong", .obj [("fontWeight", .str "bold"), ("display", .str "inline")]),
    ("span", .obj [("display", .str "inline")]),
    ("img", .obj [("display", .str "inline")]),
    ("svg", .obj [("display", .str "inline")]) ]

/-- The `defaultStyles` option of `FromJsxOptions`: absent, explicitly
`false`, or an overriding table. -/
inductive DefaultStylesOpt where
  | unset
  | disabled
  | table (t : PresetTable)

/-- `FromJsxOptions` (jsx.ts lines 30-45). -/
structure FromJsxOptions where
  defaultStyles : DefaultStylesOpt := .unset
  tailwindClassesProperty : Option String := none

/-- `ResolvedFromJsxOptions` (jsx.ts lines 47-50). -/
structure ResolvedFromJsxOptions where
  presets : Option PresetTable
  tailwindClassesProperty : String

/-- `getPresets` (jsx.ts lines 105-111): explicit `false` disables presets,
an object overrides the default table, otherwise the default table is
used. -/
def getPresets (options : Option FromJsxOptions) : Option PresetTable :=
  match options with
  | some o =>
    match o.defaultStyles with
    | .disabled => none
    | .table t => some t
    | .unset => some defaultStylePresets
  | none => some defaultStylePresets

/-- The option record `fromJsx` builds before calling `fromJsxInternal`
(jsx.ts lines 56-59): resolved presets, and the tailwind prop name
defaulting to "tw". -/
def resolveOptions (options : Option FromJsxOptions) : ResolvedFromJsxOptions :=
  { presets := getPresets options,
    tailwindClassesProperty :=
      match options with
      | some o => o.tailwindClassesProperty.getD "tw"
      | none => "tw" }

/-! ## Node builders (`src/takumi-helpers/src/helpers.ts`) -/

/-- `applyStyle` (helpers.ts lines 119-123): the style field is attached
only when the style value is present and has at least one key. -/
def applyStyle (style : Option JsxValue) : Option JsxValue :=
  match style with
  | some v => if ownKeyCount v != 0 then some v else none
  | none => none

/-- `applyPreset` (helpers.ts lines 125-129): same non-empty filter for the
preset field. -/
def applyPreset (preset : Option JsxValue) : Option JsxValue :=
  match preset with
  | some v => if ownKeyCount v != 0 then some v else none
  | none => none

/-- The `if (props.tw) node.tw = props.tw` step of each builder: the tw
field is attached only when the string is truthy (non-empty). -/
def applyTw (tw : Option String) : Option String :=
  match tw with
  | some s => if s != "" then some s else none
  | none => none

/-- Props record for the `container` builder. -/
structure ContainerProps where
  children : Option (List Node) := none
  preset : Option JsxValue := none
  style : Option JsxValue := none
  tw : Option String := none

/-- `container` (helpers.ts lines 131-145). -/
def container (props : ContainerProps) : Node :=
  Node.container props.children (applyPreset props.preset)
    (applyStyle props.style) (applyTw props.tw)

/-- Props record for the `text` builder (record overload, the one jsx.ts
uses). -/
structure TextProps where
  text : String
  preset : Option JsxValue := none
  style : Option JsxValue := none
  tw : Option String := none

/-- `text` (helpers.ts lines 150-178), record overload. -/
def text (props : TextProps) : Node :=
  Node.text props.text (applyPreset props.preset)
    (applyStyle props.style) (applyTw props.tw)

/-- Props record for the `image` builder. -/
structure ImageProps where
  src : JsxValue
  width : Option JSNum := none
  height : Option JSNum := none
  preset : Option JsxValue := none
  style : Option JsxValue := none
  tw : Option String := none

/-- `image` (helpers.ts lines 180-196). -/
def image (props : ImageProps) : Node :=
  Node.image props.src props.width props.height (applyPreset props.preset)
    (applyStyle props.style) (applyTw props.tw)

/-- `percentage` (helpers.ts line 202). -/
def percentage (p : Int) : String := toString p ++ "%"

/-! ## Style and utility-class extraction (jsx.ts lines 312-362) -/

/-- `extractStyle`: the preset is looked up in the preset table purely by
tag name; the inline style is attached only when `props.style` is a non-null
object with at least one own key.  Returns `(preset?, style?)`. -/
def extractStyle (ty : ElemType) (props : JsxValue)
    (options : ResolvedFromJsxOptions) : Option JsxValue × Option JsxValue :=
  let preset : Option JsxValue :=
    match options.presets, ty with
    | some presets, .tag name => tableGet presets name
    | _, _ => none
  let inlineStyle : Option JsxValue :=
    if propsHasKey props "style" && isObjectType (propsGet props "style")
        && !(isJsNull (propsGet props "style")) then
      some (propsGet props "style")
    else none
  let style : Option JsxValue :=
    match inlineStyle with
    | some v => if ownKeyCount v != 0 then some v else none
    | none => none
  (preset, style)

/-- `extractTw`: read the configurable tailwind prop; only a string value
is accepted, anything else reads as absent. -/
def extractTw (props : JsxValue) (options : ResolvedFromJsxOptions) :
    Option String :=
  if !(propsHasKey props options.tailwindClassesProperty) then none
  else
    match propsGet props options.tailwindClassesProperty with
    | .str s => some s
    | _ => none

/-! ## Size lemmas for termination -/

theorem one_le_sizeOf_jsxValue (v : JsxValue) : 1 ≤ sizeOf v := by
  cases v <;> simp <;> omega

theorem sizeOf_fieldsGet_lt (fields : List (String × JsxValue)) (key : String) :
    sizeOf (fieldsGet fields key) < 1 + sizeOf fields := by
  induction fields with
  | nil => simp [fieldsGet]
  | cons f rest ih =>
    obtain ⟨k, v⟩ := f
    simp only [fieldsGet]
    split
    · simp
      omega
    · simp only [List.cons.sizeOf_spec, Prod.mk.sizeOf_spec] at *
      omega

theorem sizeOf_propsGet_le (props : JsxValue) (key : String) :
    sizeOf (propsGet props key) ≤ sizeOf props := by
  cases props <;> simp [propsGet] <;> try omega
  case obj fields =>
    have := sizeOf_fieldsGet_lt fields key
    omega

theorem sizeOf_propsGet_lt (props : JsxValue) (key : String)
    (h : propsHasKey props key = true) : sizeOf (propsGet props key) < sizeOf props := by
  cases props <;> simp [propsHasKey] at h
  case obj fields =>
    have := sizeOf_fieldsGet_lt fields key
    simp [propsGet]
    omega

theorem one_le_jsize (v : JsxValue) : 1 ≤ v.jsize := by
  cases v <;> simp [JsxValue.jsize]

theorem jsize_fieldsGet_le (fields : List (String × JsxValue)) (key : String) :
    (fieldsGet fields key).jsize ≤ jsizeFields fields + 1 := by
  induction fields with
  | nil => simp [fieldsGet, JsxValue.jsize, jsizeFields]
  | cons f rest ih =>
    obtain ⟨k, v⟩ := f
    simp only [fieldsGet]
    split
    · simp [jsizeFields]
      omega
    · simp only [jsizeFields] at *
      omega

theorem jsize_fieldsGet_lt (fields : List (String × JsxValue)) (key : String)
    (h : fieldsHas fields key = true) :
    (fieldsGet fields key).jsize < jsizeFields fields + 1 := by
  induction fields with
  | nil => simp [fieldsHas] at h
  | cons f rest ih =>
    obtain ⟨k, v⟩ := f
    simp only [fieldsHas, Bool.or_eq_true, beq_iff_eq] at h
    simp only [fieldsGet]
    split
    · simp [jsizeFields]
      omega
    · have hr : fieldsHas rest key = true := by
        rcases h with h | h
        · simp_all
        · exact h
      have := ih hr
      simp only [jsizeFields]
      omega

theorem jsize_propsGet_le (props : JsxValue) (key : String) :
    (propsGet props key).jsize ≤ props.jsize := by
  cases props <;> simp [propsGet, JsxValue.jsize]
  case obj fields =>
    have := jsize_fieldsGet_le fields key
    omega

theorem jsize_propsGet_lt (props : JsxValue) (key : String)
    (h : propsHasKey props key = true) :
    (propsGet props key).jsize < props.jsize := by
  cases props <;> simp [propsHasKey] at h
  case obj fields =>
    have := jsize_fieldsGet_lt fields key h
    simp [propsGet, JsxValue.jsize]
    omega

/-- `element.type(element.props)`: the element a function component returns
when invoked (components are modelled as closures over a fixed result;
the default arm is unreachable at call sites). -/
def fnResult : ElemType → JsxValue
  | .fn r => r
  | _ => .undefined

theorem jsize_fnResult_lt (ty : ElemType) (h : isFunctionComponent ty = true) :
    (fnResult ty).jsize < ty.tsize := by
  cases ty <;> simp [isFunctionComponent] at h
  simp [fnResult, ElemType.tsize]

/-! ## Text collapsing (jsx.ts lines 145-198) -/

/-- `collectTextFromIterable`: concatenate the string forms of the children
as long as every child is a string or a number; a React element (or any
other value) abandons collapsing. -/
def collectTextFromIterable : List JsxValue → Option String
  | [] => some ""
  | child :: rest =>
    if isValidElement child then none
    else
      match child with
      | .str s => (collectTextFromIterable rest).map (fun t => s ++ t)
      | .num n => (collectTextFromIterable rest).map (fun t => toString n ++ t)
      | _ => none

/-- `tryCollectTextChildren`: a single string/number child collapses
directly, a sequence of children collapses via `collectTextFromIterable`,
and a single fragment child is unwrapped and re-checked.  The source takes
the element; only its `props` are consulted (the leading `isValidElement`
check always holds there). -/
def tryCollectTextChildren (props : JsxValue) : Option String :=
  if h : propsHasKey props "children" then
    match hm : propsGet props "children" with
    | .str s => some s
    | .num n => some (toString n)
    | .iter xs => collectTextFromIterable xs
    | .elem .fragmentSym cprops => tryCollectTextChildren cprops
    | _ => none
  else none
termination_by sizeOf props
decreasing_by
  have h1 := sizeOf_propsGet_lt props "children" h
  rw [hm] at h1
  simp at h1
  omega

/-! ## Image and svg elements (jsx.ts lines 259-310) -/

/-- The `width`/`height` coercion of `createImageElement` and
`createSvgElement`: absent (`undefined`) props stay absent, present props
are run through `Number(...)`. -/
def coerceDimension (v : JsxValue) : Option JSNum :=
  match v with
  | .undefined => none
  | w => some (jsNumber w)

/-- `createImageElement` (jsx.ts lines 259-285): a falsy `src` prop throws
the MissingSource error; otherwise an image node is built from the raw
`src` value, coerced dimensions, and the extracted preset/style/tw. -/
def createImageElement (ty : ElemType) (props : JsxValue)
    (options : ResolvedFromJsxOptions) : Except JsError Node :=
  if !(jsTruthy (propsGet props "src")) then .error .missingSource
  else
    let s := extractStyle ty props options
    let tw := extractTw props options
    .ok (image { src := propsGet props "src",
                 width := coerceDimension (propsGet props "width"),
                 height := coerceDimension (propsGet props "height"),
                 preset := s.1, style := s.2, tw })

/-- Modelled from the spec: the body of the markup serializer used for svg
subtrees (`src/takumi-helpers/src/jsx/svg.ts` is not under `src/`).  Spec §6
treats it as a black box `serialize(hostElementSubtree) -> string`; we model
the serialized children as the concatenated text content of the subtree. -/
def svgInner : JsxValue → String
  | .str s => s
  | .num n => toString n
  | .iter xs => String.join (xs.attach.map fun x => svgInner x.1)
  | .elem _ props => svgInner (propsGet props "children")
  | _ => ""
termination_by v => sizeOf v
decreasing_by
  · have := List.sizeOf_lt_of_mem x.2
    simp
    omega
  · have h1 := sizeOf_propsGet_le props "children"
    simp
    omega

/-- Modelled from the spec: `serializeSvg(element)` — the black-box markup
serializer (§6), producing the svg markup string of the subtree.  Its output
always carries the surrounding `svg` tags, so it is never empty. -/
def serializeSvg (props : JsxValue) : String :=
  "<svg>" ++ svgInner (propsGet props "children") ++ "</svg>"

/-- `createSvgElement` (jsx.ts lines 287-310): serialize the subtree and use
the markup string as the image source; same style/size handling as `img`. -/
def createSvgElement (ty : ElemType) (props : JsxValue)
    (options : ResolvedFromJsxOptions) : Node :=
  let s := extractStyle ty props options
  let tw := extractTw props options
  let svg := serializeSvg props
  image { src := .str svg,
          width := coerceDimension (propsGet props "width"),
          height := coerceDimension (propsGet props "height"),
          preset := s.1, style := s.2, tw }

/-! ## The tree resolver (jsx.ts lines 52-103, 113-143, 200-257, 364-413) -/

mutual

/-- `fromJsxInternal` (jsx.ts lines 78-103): empties produce no nodes,
promises are awaited and re-dispatched, iterables fan out, elements are
processed, and anything else is coerced to a single text node carrying the
`span` preset. -/
def fromJsxInternal (element : JsxValue) (options : ResolvedFromJsxOptions) :
    Except JsError (List Node) :=
  match element with
  | .undefined => .ok []
  | .jsNull => .ok []
  | .bool false => .ok []
  | .promise v => fromJsxInternal v options
  | .iter xs => collectIterable xs options
  | .elem ty props => processReactElement ty props options
  | other =>
    .ok [text { text := jsString other,
                preset := presetLookup options.presets "span" }]
termination_by 4 * element.jsize + 3
decreasing_by all_goals (simp only [JsxValue.jsize]; omega)

/-- The result of `collectIterable` (jsx.ts lines 380-413): each element of
the sequence is resolved and the per-element node lists are flattened in
input index order.  The source resolves elements concurrently into
index-addressed slots; the operational fan-out is modelled by `FanoutStep`
below and proved to produce exactly this list. -/
def collectIterable (elements : List JsxValue)
    (options : ResolvedFromJsxOptions) : Except JsError (List Node) :=
  match elements with
  | [] => .ok []
  | x :: rest => do
    let nodes ← fromJsxInternal x options
    let more ← collectIterable rest options
    pure (nodes ++ more)
termination_by 4 * jsizeList elements + 3
decreasing_by all_goals (simp only [jsizeList]; omega)

/-- `processReactElement` (jsx.ts lines 200-257). -/
def processReactElement (ty : ElemType) (props : JsxValue)
    (options : ResolvedFromJsxOptions) : Except JsError (List Node) :=
  if hf : isFunctionComponent ty then
    fromJsxInternal (fnResult ty) options
  else
    match tryHandleComponentWrapper ty props options with
    | some r => r
    | none =>
      if isReactFragment ty then collectChildren props options
      else if isHtmlVoidElement ty then .ok []
      else if isHtmlElement ty "br" then
        .ok [text { text := "\n",
                    preset := presetLookup options.presets "span" }]
      else if isHtmlElement ty "img" then
        (createImageElement ty props options).map (fun n => [n])
      else if isHtmlElement ty "svg" then
        .ok [createSvgElement ty props options]
      else
        let s := extractStyle ty props options
        let tw := extractTw props options
        match tryCollectTextChildren props with
        | some txt =>
          .ok [text { text := txt, preset := s.1, style := s.2, tw }]
        | none => do
          let children ← collectChildren props options
          pure [container { children := some children,
                            preset := s.1, style := s.2, tw }]
termination_by 4 * (ty.tsize + props.jsize) + 2
decreasing_by
  · have := jsize_fnResult_lt ty hf
    omega
  all_goals omega

/-- `tryHandleComponentWrapper` (jsx.ts lines 113-143): forwardRef wrappers
invoke `render(props, null)` and recurse; memo wrappers unwrap one level —
a memoized function component is invoked directly, any other inner type is
substituted back into the element and re-dispatched. -/
def tryHandleComponentWrapper (ty : ElemType) (props : JsxValue)
    (options : ResolvedFromJsxOptions) :
    Option (Except JsError (List Node)) :=
  match ty with
  | .forwardRef result => some (fromJsxInternal result options)
  | .memo inner =>
    match inner with
    | .fn result => some (fromJsxInternal result options)
    | innerTy => some (processReactElement innerTy props options)
  | _ => none
termination_by 4 * (ty.tsize + props.jsize) + 1
decreasing_by all_goals (try simp only [ElemType.tsize]; omega)

/-- `collectChildren` (jsx.ts lines 364-376): resolve `props.children`
through `fromJsxInternal`, or nothing when no children prop exists. -/
def collectChildren (props : JsxValue) (options : ResolvedFromJsxOptions) :
    Except JsError (List Node) :=
  if h : propsHasKey props "children" then
    fromJsxInternal (propsGet props "children") options
  else .ok []
termination_by 4 * props.jsize
decreasing_by
  have := jsize_propsGet_lt props "children" h
  omega

end

/-- `fromJsx` (jsx.ts lines 52-76): resolve the element, then normalize to
exactly one root node — zero results yield an empty container, one result
is returned as-is, several results are wrapped in a container filling 100%
of width and height. -/
def fromJsx (element : JsxValue) (options : Option FromJsxOptions) :
    Except JsError Node := do
  let result ← fromJsxInternal element (resolveOptions options)
  match result with
  | [] => pure (container {})
  | [n] => pure n
  | _ =>
    pure (container
      { children := some result,
        style := some (.obj [("width", .str (percentage 100)),
                             ("height", .str (percentage 100))]) })

/-! ## Classification (spec §4.1) -/

/-- The input variants distinguished by the dispatch of `fromJsxInternal`. -/
inductive ElementKind where
  | empty
  | deferred
  | sequence
  | renderableElement
  | primitiveCoerce
deriving DecidableEq

/-- The classification order of `fromJsxInternal` (jsx.ts lines 82-97):
empties first, then promises, then the iterable check guarded by
`typeof element === "object"`, then `isValidElement`, and everything else
is coerced to a primitive. -/
def classify (v : JsxValue) : ElementKind :=
  if isEmptyValue v then .empty
  else if isPromise v then .deferred
  else if isObjectType v && jsHasIteratorSymbol v then .sequence
  else if isValidElement v then .renderableElement
  else .primitiveCoerce

/-! ## Per-node field predicates -/

/-- A node's `preset` and `style` fields are present only with a non-empty
key set. -/
def presetStyleFieldsOk (n : Node) : Bool :=
  (match n.preset with
   | some m => ownKeyCount m != 0
   | none => true) &&
  (match n.style with
   | some v => ownKeyCount v != 0
   | none => true)

/-- A node's `tw` field, when present, is a non-empty string. -/
def twFieldOk (n : Node) : Bool :=
  match n.tw with
  | some s => s != ""
  | none => true

/-- Both field conditions at once. -/
def goodFields (n : Node) : Bool := presetStyleFieldsOk n && twFieldOk n

mutual

/-- `p` holds at every node of a render tree. -/
def nodeAll (p : Node → Bool) : Node → Bool
  | .container (some cs) preset style tw =>
    p (.container (some cs) preset style tw) && nodeListAll p cs
  | n => p n

/-- `p` holds at every node of every tree in a list. -/
def nodeListAll (p : Node → Bool) : List Node → Bool
  | [] => true
  | n :: rest => nodeAll p n && nodeListAll p rest

end

/-- The node list a resolution produced, or `[]` on error (the shape of a
slot that the final flatten of `collectIterable` skips with `if (group)`). -/
def okNodes : Except JsError (List Node) → List Node
  | .ok nodes => nodes
  | .error _ => []

/-- The items of an iterable value. -/
def iterItems : JsxValue → List JsxValue
  | .iter xs => xs
  | _ => []

/-- The `type` of an element value. -/
def elemTy : JsxValue → ElemType
  | .elem t _ => t
  | _ => .otherObj

/-- The `props` of an element value. -/
def elemProps : JsxValue → JsxValue
  | .elem _ p => p
  | _ => .undefined

/-- the source field of an image node -/
def Node.srcVal : Node → Option JsxValue
  | .image src _ _ _ _ _ => some src
  | _ => none

/-- A child that contributes its string form to a pure-text run. -/
def isTextPrimitive : JsxValue → Bool
  | .str _ => true
  | .num _ => true
  | _ => false

/-- The string form a primitive child contributes. -/
def primString : JsxValue → String
  | .str s => s
  | .num n => toString n
  | _ => ""

/-- Concatenation of the children's string forms. -/
def primsConcat : List JsxValue → String
  | [] => ""
  | x :: rest => primString x ++ primsConcat rest

/-! ## The bounded-concurrency fan-out of `collectIterable`
(jsx.ts lines 378-413)

`collectIterable` pulls elements off the iterable in order, starts an
asynchronous resolution for each, and keeps the set of in-flight
resolutions; once the set reaches `MAX_CONCURRENT_ITERABLE_RESOLUTION`
entries it awaits `Promise.race` — so at least one resolution leaves the
set — before admitting the next element.  Results are written into
index-addressed slots (`groupedResults[currentIndex] = nodes`), never
appended on completion.  `FanoutStep` is the operational model: an `admit`
step admits the next element (only possible below the cap, which is how the
`await Promise.race` blocking behaves), a `complete` step lets an arbitrary
in-flight resolution finish and write its slot.  Completion order is
unconstrained.  Each `collectIterable` call — nested sequences included —
runs its own `FanoutState`, so the admission count of one fan-out is
independent of any other. -/

/-- `MAX_CONCURRENT_ITERABLE_RESOLUTION` (jsx.ts line 378). -/
def MAX_CONCURRENT_ITERABLE_RESOLUTION : Nat := 8

/-- State of a single fan-out: how many elements were pulled off the
iterable, the indices currently in flight, and the index-addressed result
slots. -/
structure FanoutState where
  admitted : Nat
  inFlight : List Nat
  slots : List (Option (Except JsError (List Node)))

/-- Fan-out start state: nothing admitted, nothing in flight, empty
slots. -/
def initFanout (n : Nat) : FanoutState :=
  { admitted := 0, inFlight := [], slots := List.replicate n none }

/-- One scheduler step of the fan-out of `collectIterable`. -/
inductive FanoutStep (xs : List JsxValue) (options : ResolvedFromJsxOptions) :
    FanoutState → FanoutState → Prop where
  | pull (s : FanoutState)
      (hq : s.admitted < xs.length)
      (hcap : s.inFlight.length < MAX_CONCURRENT_ITERABLE_RESOLUTION) :
      FanoutStep xs options s
        { admitted := s.admitted + 1,
          inFlight := s.admitted :: s.inFlight,
          slots := s.slots }
  | complete (s : FanoutState) (i : Nat) (hi : i ∈ s.inFlight) :
      FanoutStep xs options s
        { admitted := s.admitted,
          inFlight := s.inFlight.erase i,
          slots := s.slots.set i
            (some (fromJsxInternal (xs.getD i .undefined) options)) }

/-- The states one fan-out can reach. -/
def FanoutReachable (xs : List JsxValue) (options : ResolvedFromJsxOptions)
    (s : FanoutState) : Prop :=
  Relation.ReflTransGen (FanoutStep xs options) (initFanout xs.length) s

/-- The final flatten of `collectIterable`: groups in slot order,
skipping unwritten or failed slots (`if (group)`). -/
def fanoutFlatten (slots : List (Option (Except JsError (List Node)))) :
    List Node :=
  slots.foldr
    (fun g acc =>
      match g with
      | some (.ok nodes) => nodes ++ acc
      | _ => acc) []

/-- The inductive invariant of a fan-out state. -/
def FanoutInv (xs : List JsxValue) (options : ResolvedFromJsxOptions)
    (s : FanoutState) : Prop :=
  s.admitted ≤ xs.length ∧
  s.inFlight.Nodup ∧
  (∀ i ∈ s.inFlight, i < s.admitted) ∧
  s.inFlight.length ≤ MAX_CONCURRENT_ITERABLE_RESOLUTION ∧
  s.slots.length = xs.length ∧
  (∀ i, i < xs.length →
    s.slots[i]? = some (if i < s.admitted ∧ i ∉ s.inFlight
      then some (fromJsxInternal (xs.getD i .undefined) options)
      else none))


/-! ## Theorems -/

/-- C1: `fromJsx` always returns exactly one root node: when the internal
resolution yields zero nodes it returns an empty Container with no children
and no style fields; when it yields exactly one node it returns that node
unchanged with no extra wrapping layer; when it yields two or more nodes it
returns a synthetic Container whose children are those nodes in order and
whose style sets width and height to "100%". -/
theorem fromJsx_single_root (element : JsxValue) (options : Option FromJsxOptions)
    (r : List Node)
    (h : fromJsxInternal element (resolveOptions options) = .ok r) :
    (r = [] → fromJsx element options = .ok (Node.container none none none none)) ∧
    (∀ n, r = [n] → fromJsx element options = .ok n) ∧
    (2 ≤ r.length → fromJsx element options = .ok (Node.container (some r) none
      (some (.obj [("width", .str (percentage 100)),
                   ("height", .str (percentage 100))])) none)) := by
  refine ⟨?_, ?_, ?_⟩
  · intro h0
    subst h0
    simp [fromJsx, h, bind, Except.bind, pure, Except.pure, container,
          applyPreset, applyStyle, applyTw]
  · intro n hn
    subst hn
    simp [fromJsx, h, bind, Except.bind, pure, Except.pure]
  · intro hlen
    match r with
    | [] => simp at hlen
    | [n] => simp at hlen
    | a :: b :: rest =>
      simp [fromJsx, h, bind, Except.bind, pure, Except.pure, container,
            applyPreset, applyStyle, applyTw, ownKeyCount]

theorem fromJsx_single_root_witness :
    fromJsxInternal JsxValue.undefined (resolveOptions none) = .ok [] ∧
    fromJsx JsxValue.undefined none = .ok (Node.container none none none none) := by
  have h : fromJsxInternal JsxValue.undefined (resolveOptions none) = .ok [] := by
    simp [fromJsxInternal]
  exact ⟨h, (fromJsx_single_root JsxValue.undefined none [] h).1 rfl⟩



/-- C9: a string passed to the compiler is treated as one primitive: it
yields exactly one Text node holding the string (with the span preset when
presets are active) and is never iterated character by character — strings
do carry the iterator symbol, but the sequence branch additionally requires
`typeof element === "object"`, which strings fail, so `classify` sends them
to the primitive-coercion branch. -/
theorem string_input_single_text_node (s : String)
    (options : ResolvedFromJsxOptions) :
    fromJsxInternal (.str s) options =
      .ok [text { text := s, preset := presetLookup options.presets "span" }] ∧
    fromJsx (.str s) none =
      .ok (Node.text s (some (.obj [("display", .str "inline")])) none none) ∧
    jsHasIteratorSymbol (.str s) = true ∧
    isObjectType (.str s) = false ∧
    classify (.str s) = .primitiveCoerce := by
  refine ⟨?_, ?_, rfl, rfl, rfl⟩
  · simp [fromJsxInternal, text, jsString]
  · simp [fromJsx, fromJsxInternal, bind, Except.bind, pure, Except.pure,
          text, applyPreset, applyStyle, applyTw, jsString, presetLookup,
          resolveOptions, getPresets, defaultStylePresets, tableGet, ownKeyCount]


/-- C7: classification is total and dispatch never throws: `fromJsxInternal`
follows `classify` exactly — empties first, then deferred values, then the
iterable check, then renderable shapes, and any remaining value is coerced
to a single Text node via string conversion (an `.ok` result, never an
error); style extraction degrades to an absent field when the style prop is
not an object, and utility-class extraction degrades to absent on any
non-string value. -/
theorem classification_total_and_non_throwing :
    (∀ v options, fromJsxInternal v options =
      (match classify v with
       | .empty => .ok []
       | .deferred => fromJsxInternal (promiseValue v) options
       | .sequence => collectIterable (iterItems v) options
       | .renderableElement =>
         processReactElement (elemTy v) (elemProps v) options
       | .primitiveCoerce =>
         .ok [Node.text (jsString v)
               (applyPreset (presetLookup options.presets "span")) none none])) ∧
    (∀ ty props options, isObjectType (propsGet props "style") = false →
      (extractStyle ty props options).2 = none) ∧
    (∀ props options,
      (∀ s, propsGet props options.tailwindClassesProperty ≠ .str s) →
      extractTw props options = none) := by
  refine ⟨?_, ?_, ?_⟩
  · intro v options
    cases v with
    | bool b =>
      cases b <;>
        simp [fromJsxInternal, classify, isEmptyValue, isPromise,
              isObjectType, jsHasIteratorSymbol, isValidElement,
              text, jsString, applyStyle, applyTw]
    | _ =>
      simp [fromJsxInternal, classify, isEmptyValue, isPromise,
            isObjectType, jsHasIteratorSymbol, isValidElement,
            iterItems, elemTy, elemProps, promiseValue,
            text, jsString, applyStyle, applyTw]
  · intro ty props options h
    simp [extractStyle, h]
  · intro props options h
    unfold extractTw
    split
    · rfl
    · split
      · next s heq => exact absurd heq (h s)
      · rfl



theorem classification_witness :
    (extractStyle (.tag "div") (JsxValue.obj [("style", .str "red")])
      { presets := none, tailwindClassesProperty := "tw" }).2 = none ∧
    extractTw (JsxValue.obj [("tw", .num 5)])
      { presets := none, tailwindClassesProperty := "tw" } = none := by
  constructor
  · exact (classification_total_and_non_throwing.2.1) (.tag "div")
      (JsxValue.obj [("style", .str "red")])
      { presets := none, tailwindClassesProperty := "tw" } (by rfl)
  · exact (classification_total_and_non_throwing.2.2) (JsxValue.obj [("tw", .num 5)])
      { presets := none, tailwindClassesProperty := "tw" }
      (by intro s h; simp [propsGet, fieldsGet] at h)

/-- C8: the utility-class string is read from the props property named by
the configurable option, which defaults to "tw" when the option or the
whole options record is absent; `extractTw` returns a string exactly when
the props carry that property with a string value, any other type reads as
absent and is never coerced; and the extracted value is what a general host
element attaches (through the builder) to its node. -/
theorem tw_read_from_configurable_prop :
    ((resolveOptions none).tailwindClassesProperty = "tw") ∧
    (∀ o : FromJsxOptions, o.tailwindClassesProperty = none →
      (resolveOptions (some o)).tailwindClassesProperty = "tw") ∧
    (∀ (o : FromJsxOptions) (name : String), o.tailwindClassesProperty = some name →
      (resolveOptions (some o)).tailwindClassesProperty = name) ∧
    (∀ props options s, extractTw props options = some s ↔
      (propsHasKey props options.tailwindClassesProperty = true ∧
       propsGet props options.tailwindClassesProperty = .str s)) ∧
    (∀ props options, (∀ s, propsGet props options.tailwindClassesProperty ≠ .str s) →
      extractTw props options = none) ∧
    (∀ (name : String) (props : JsxValue) (options : ResolvedFromJsxOptions) (txt : String),
      voidElements.contains name = false → name ≠ "br" → name ≠ "img" → name ≠ "svg" →
      tryCollectTextChildren props = some txt →
      processReactElement (.tag name) props options =
        .ok [text { text := txt, preset := (extractStyle (.tag name) props options).1,
                    style := (extractStyle (.tag name) props options).2,
                    tw := extractTw props options }]) := by
  refine ⟨rfl, ?_, ?_, ?_, ?_, ?_⟩
  · intro o h
    simp [resolveOptions, h]
  · intro o name h
    simp [resolveOptions, h]
  · intro props options s
    unfold extractTw
    split
    · next hk =>
      simp at hk
      simp [hk]
    · next hk =>
      simp at hk
      split
      · next s' heq => simp [hk, heq]
      · next hne =>
        simp
        intro hcontra
        exact fun heq => hne s (by rw [heq])
  · intro props options h
    unfold extractTw
    split
    · rfl
    · split
      · next s heq => exact absurd heq (h s)
      · rfl
  · intro name props options txt hvoid hbr himg hsvg hcollect
    rw [processReactElement]
    simp [isFunctionComponent, tryHandleComponentWrapper, isReactFragment,
          isHtmlVoidElement, isHtmlElement, hvoid, hbr, himg, hsvg, hcollect]
    simpa using hvoid



theorem tw_read_witness :
    extractTw (JsxValue.obj [("className", .str "p-4")])
      { presets := none, tailwindClassesProperty := "className" } = some "p-4" := by
  exact (tw_read_from_configurable_prop.2.2.2.1
    (JsxValue.obj [("className", .str "p-4")])
    { presets := none, tailwindClassesProperty := "className" } "p-4").2 ⟨rfl, rfl⟩


/-- C4: an `img` element whose `src` prop is absent or the empty string
makes the whole compilation fail with the MissingSource error — both at
`fromJsxInternal` and propagated to the caller of `fromJsx`, so no partial
tree is returned; compiling an `img` element with empty props raises it; an
`img` with a non-empty source string succeeds; and an `svg` element always
receives the (never empty) serialized markup as its source, so it can never
lack one. -/
theorem missing_source_fatal :
    (∀ props options, (propsGet props "src" = .undefined ∨ propsGet props "src" = .str "") →
      fromJsxInternal (.elem (.tag "img") props) options = .error .missingSource) ∧
    (∀ props options s, propsGet props "src" = .str s → s ≠ "" →
      fromJsxInternal (.elem (.tag "img") props) options =
        .ok [image { src := .str s,
                     width := coerceDimension (propsGet props "width"),
                     height := coerceDimension (propsGet props "height"),
                     preset := (extractStyle (.tag "img") props options).1,
                     style := (extractStyle (.tag "img") props options).2,
                     tw := extractTw props options }]) ∧
    (∀ element options e, fromJsxInternal element (resolveOptions options) = .error e →
      fromJsx element options = .error e) ∧
    (fromJsx (.elem (.tag "img") (.obj [])) none = .error .missingSource) ∧
    (∀ props options, (createSvgElement (.tag "svg") props options).srcVal =
        some (.str (serializeSvg props)) ∧ serializeSvg props ≠ "") := by
  refine ⟨?_, ?_, ?_, ?_, ?_⟩
  · intro props options h
    rw [fromJsxInternal, processReactElement]
    rcases h with h | h <;>
      simp [isFunctionComponent, tryHandleComponentWrapper, isReactFragment,
            isHtmlVoidElement, isHtmlElement, voidElements, createImageElement,
            h, jsTruthy, Except.map]
  · intro props options s hs hne
    rw [fromJsxInternal, processReactElement]
    simp [isFunctionComponent, tryHandleComponentWrapper, isReactFragment,
          isHtmlVoidElement, isHtmlElement, voidElements, createImageElement,
          hs, jsTruthy, hne, image, Except.map]
  · intro element options e h
    simp [fromJsx, h, bind, Except.bind]
  · have h0 : fromJsxInternal (.elem (.tag "img") (.obj []))
        (resolveOptions none) = .error .missingSource := by
      rw [fromJsxInternal, processReactElement]
      simp [isFunctionComponent, tryHandleComponentWrapper, isReactFragment,
            isHtmlVoidElement, isHtmlElement, voidElements, createImageElement,
            propsGet, fieldsGet, jsTruthy, Except.map]
    simp [fromJsx, h0, bind, Except.bind]
  · intro props options
    constructor
    · simp [createSvgElement, image, Node.srcVal]
    · simp [serializeSvg]
      intro hcontra
      have := congrArg String.length hcontra
      simp [String.length_append] at this
      exact absurd this.1.1 (by decide)

theorem missing_source_witness :
    fromJsxInternal (.elem (.tag "img") (.obj [("alt", .str "x")]))
      { presets := none, tailwindClassesProperty := "tw" } = .error .missingSource := by
  exact missing_source_fatal.1 (.obj [("alt", .str "x")])
    { presets := none, tailwindClassesProperty := "tw" } (Or.inl rfl)




theorem collectTextFromIterable_eq (xs : List JsxValue) :
    collectTextFromIterable xs =
      if xs.all isTextPrimitive then some (primsConcat xs) else none := by
  induction xs with
  | nil => simp [collectTextFromIterable, primsConcat]
  | cons x rest ih =>
    cases x with
    | str s =>
      simp only [collectTextFromIterable, isValidElement]
      rw [ih]
      by_cases hall : rest.all isTextPrimitive = true <;>
        simp [hall, isTextPrimitive, primString, primsConcat]
    | num n =>
      simp only [collectTextFromIterable, isValidElement]
      rw [ih]
      by_cases hall : rest.all isTextPrimitive = true <;>
        simp [hall, isTextPrimitive, primString, primsConcat]
    | _ => simp [collectTextFromIterable, isValidElement, isTextPrimitive]

/-- C6: text collapsing — a single string or number child collapses to its
string form; a sequence of children collapses to the concatenation of their
string forms exactly when every child is a string or a number, and any
renderable-element child aborts collapsing; a single fragment child is
transparently unwrapped and re-checked; and when collapsing fails, a
general host element becomes a Container over its recursively resolved
children. -/
theorem text_collapsing_behaviour :
    (∀ props s, propsHasKey props "children" = true →
      propsGet props "children" = .str s →
      tryCollectTextChildren props = some s) ∧
    (∀ props n, propsHasKey props "children" = true →
      propsGet props "children" = .num n →
      tryCollectTextChildren props = some (toString n)) ∧
    (∀ props xs, propsHasKey props "children" = true →
      propsGet props "children" = .iter xs →
      tryCollectTextChildren props = collectTextFromIterable xs) ∧
    (∀ xs, collectTextFromIterable xs =
      if xs.all isTextPrimitive then some (primsConcat xs) else none) ∧
    (∀ xs x, x ∈ xs → isValidElement x = true →
      collectTextFromIterable xs = none) ∧
    (∀ props cprops, propsHasKey props "children" = true →
      propsGet props "children" = .elem .fragmentSym cprops →
      tryCollectTextChildren props = tryCollectTextChildren cprops) ∧
    (∀ name props options cs,
      voidElements.contains name = false → name ≠ "br" → name ≠ "img" →
      name ≠ "svg" →
      tryCollectTextChildren props = none →
      collectChildren props options = .ok cs →
      processReactElement (.tag name) props options =
        .ok [container { children := some cs,
                         preset := (extractStyle (.tag name) props options).1,
                         style := (extractStyle (.tag name) props options).2,
                         tw := extractTw props options }]) := by
  refine ⟨?_, ?_, ?_, collectTextFromIterable_eq, ?_, ?_, ?_⟩
  · intro props s hk hcv
    rw [tryCollectTextChildren]
    simp only [hk, dite_true]
    split <;> simp_all
  · intro props n hk hcv
    rw [tryCollectTextChildren]
    simp only [hk, dite_true]
    split <;> simp_all
  · intro props xs hk hcv
    rw [tryCollectTextChildren]
    simp only [hk, dite_true]
    split <;> simp_all
  · intro xs x hx hval
    rw [collectTextFromIterable_eq]
    have hnp : isTextPrimitive x = false := by
      cases x <;> simp [isValidElement] at hval <;> rfl
    have : xs.all isTextPrimitive = false := by
      rw [List.all_eq_false]
      exact ⟨x, hx, by simp [hnp]⟩
    simp [this]
  · intro props cprops hk hcv
    rw [tryCollectTextChildren]
    simp only [hk, dite_true]
    split <;> simp_all
  · intro name props options cs hvoid hbr himg hsvg hcollect hcc
    rw [processReactElement]
    simp [isFunctionComponent, tryHandleComponentWrapper, isReactFragment,
          isHtmlVoidElement, isHtmlElement, hvoid, hbr, himg, hsvg, hcollect,
          hcc, bind, Except.bind, pure, Except.pure]
    simpa using hvoid

theorem text_collapsing_witness :
    tryCollectTextChildren
      (JsxValue.obj [("children", .iter [.str "Hello ", .str "World"])]) =
      some "Hello World" := by
  have h := text_collapsing_behaviour.2.2.1
    (JsxValue.obj [("children", .iter [.str "Hello ", .str "World"])])
    [.str "Hello ", .str "World"] rfl rfl
  rw [h, collectTextFromIterable_eq]
  rfl



theorem applyPreset_keys (x : Option JsxValue) :
    (match applyPreset x with
     | some m => ownKeyCount m != 0
     | none => true) = true := by
  unfold applyPreset
  cases x with
  | none => rfl
  | some v => cases hb : (ownKeyCount v != 0) <;> simp [hb]

theorem applyStyle_keys (x : Option JsxValue) :
    (match applyStyle x with
     | some m => ownKeyCount m != 0
     | none => true) = true := by
  unfold applyStyle
  cases x with
  | none => rfl
  | some v => cases hb : (ownKeyCount v != 0) <;> simp [hb]

theorem applyTw_nonempty (x : Option String) :
    (match applyTw x with
     | some s => s != ""
     | none => true) = true := by
  unfold applyTw
  cases x with
  | none => rfl
  | some s => cases hb : (s != "") <;> simp [hb]

theorem goodFields_text (p : TextProps) : goodFields (text p) = true := by
  simp only [goodFields, presetStyleFieldsOk, twFieldOk, text,
    Node.preset, Node.style, Node.tw, Bool.and_eq_true]
  exact ⟨⟨applyPreset_keys _, applyStyle_keys _⟩, applyTw_nonempty _⟩

theorem goodFields_image (p : ImageProps) : goodFields (image p) = true := by
  simp only [goodFields, presetStyleFieldsOk, twFieldOk, image,
    Node.preset, Node.style, Node.tw, Bool.and_eq_true]
  exact ⟨⟨applyPreset_keys _, applyStyle_keys _⟩, applyTw_nonempty _⟩

theorem goodFields_container (p : ContainerProps) :
    goodFields (container p) = true := by
  simp only [goodFields, presetStyleFieldsOk, twFieldOk, container,
    Node.preset, Node.style, Node.tw, Bool.and_eq_true]
  exact ⟨⟨applyPreset_keys _, applyStyle_keys _⟩, applyTw_nonempty _⟩

theorem nodeAll_text (p : Node → Bool) (tp : TextProps)
    (h : p (text tp) = true) : nodeAll p (text tp) = true := by
  simp [text, nodeAll]
  simpa [text] using h

theorem nodeAll_image (p : Node → Bool) (ip : ImageProps)
    (h : p (image ip) = true) : nodeAll p (image ip) = true := by
  simp [image, nodeAll]
  simpa [image] using h

theorem nodeAll_container_some (p : Node → Bool) (cs : List Node)
    (pr st : Option JsxValue) (tw : Option String)
    (h : p (container { children := some cs, preset := pr, style := st,
                        tw := tw }) = true)
    (hcs : nodeListAll p cs = true) :
    nodeAll p (container { children := some cs, preset := pr, style := st,
                           tw := tw }) = true := by
  simp only [container, nodeAll, Bool.and_eq_true]
  exact ⟨by simpa [container] using h, hcs⟩

theorem nodeAll_container_none (p : Node → Bool)
    (pr st : Option JsxValue) (tw : Option String)
    (h : p (container { children := none, preset := pr, style := st,
                        tw := tw }) = true) :
    nodeAll p (container { children := none, preset := pr, style := st,
                           tw := tw }) = true := by
  simp only [container, nodeAll]
  simpa [container] using h

theorem nodeListAll_append (p : Node → Bool) (l1 l2 : List Node) :
    nodeListAll p (l1 ++ l2) = (nodeListAll p l1 && nodeListAll p l2) := by
  induction l1 with
  | nil => simp [nodeListAll]
  | cons n rest ih => simp [nodeListAll, ih, Bool.and_assoc]

theorem nodeListAll_singleton (p : Node → Bool) (n : Node) :
    nodeListAll p [n] = nodeAll p n := by
  simp [nodeListAll]



theorem nodeListAll_text_builder (tp : TextProps) :
    nodeListAll goodFields [text tp] = true := by
  rw [nodeListAll_singleton]
  exact nodeAll_text _ _ (goodFields_text _)

theorem nodeListAll_image_builder (ip : ImageProps) :
    nodeListAll goodFields [image ip] = true := by
  rw [nodeListAll_singleton]
  exact nodeAll_image _ _ (goodFields_image _)

theorem nodeListAll_container_builder (cs : List Node) (pr st : Option JsxValue)
    (tw : Option String) (hcs : nodeListAll goodFields cs = true) :
    nodeListAll goodFields
      [container { children := some cs, preset := pr, style := st, tw := tw }] = true := by
  rw [nodeListAll_singleton]
  exact nodeAll_container_some _ cs pr st tw (goodFields_container _) hcs

theorem resolver_goodFields (element : JsxValue)
    (options : ResolvedFromJsxOptions) :
    ∀ r, fromJsxInternal element options = .ok r →
      nodeListAll goodFields r = true := by
  refine fromJsxInternal.induct
    (fun e o => ∀ r, fromJsxInternal e o = .ok r →
      nodeListAll goodFields r = true)
    (fun ty p o => ∀ r, processReactElement ty p o = .ok r →
      nodeListAll goodFields r = true)
    (fun p o => ∀ r, collectChildren p o = .ok r →
      nodeListAll goodFields r = true)
    (fun ty p o => ∀ res, tryHandleComponentWrapper ty p o = some res →
      ∀ r, res = .ok r → nodeListAll goodFields r = true)
    (fun xs o => ∀ r, collectIterable xs o = .ok r →
      nodeListAll goodFields r = true)
    ?_ ?_ ?_ ?_ ?_ ?_ ?_ ?_ ?_ ?_ ?_ ?_ ?_ ?_ ?_ ?_ ?_ ?_ ?_ ?_ ?_ ?_ ?_ ?_
    element options
  · intro o r h
    simp [fromJsxInternal] at h
    subst h
    simp [nodeListAll]
  · intro o r h
    simp [fromJsxInternal] at h
    subst h
    simp [nodeListAll]
  · intro o r h
    simp [fromJsxInternal] at h
    subst h
    simp [nodeListAll]
  · intro o v ih r h
    rw [fromJsxInternal] at h
    exact ih r h
  · intro o xs ih r h
    rw [fromJsxInternal] at h
    exact ih r h
  · intro o ty props ih r h
    rw [fromJsxInternal] at h
    exact ih r h
  · intro o other h1 h2 h3 h4 h5 h6 r h
    cases other with
    | undefined => exact absurd rfl h1
    | jsNull => exact absurd rfl h2
    | bool b =>
      cases b with
      | false => exact absurd rfl h3
      | true =>
        simp [fromJsxInternal] at h
        simp [← h]
        exact nodeListAll_text_builder _
    | promise v => exact absurd rfl (h4 v)
    | iter xs => exact absurd rfl (h5 xs)
    | elem ty p => exact absurd rfl (h6 ty p)
    | str s =>
      simp [fromJsxInternal] at h
      simp [← h]
      exact nodeListAll_text_builder _
    | num n =>
      simp [fromJsxInternal] at h
      simp [← h]
      exact nodeListAll_text_builder _
    | obj fs =>
      simp [fromJsxInternal] at h
      simp [← h]
      exact nodeListAll_text_builder _
  · intro ty props options hf ih r h
    rw [processReactElement] at h
    rw [dif_pos hf] at h
    exact ih r h
  · intro ty props options hnf res hres ih r h
    rw [processReactElement] at h
    rw [dif_neg hnf, hres] at h
    simp at h
    exact ih res hres r h
  · intro ty props options hnf hw hfrag ih4 ih3 r h
    rw [processReactElement] at h
    simp only [dif_neg hnf, hw, hfrag, if_true] at h
    exact ih3 r h
  · intro ty props options hnf hw hfrag hvoid ih4 r h
    rw [processReactElement] at h
    simp only [dif_neg hnf, hw, hfrag, hvoid, if_true, if_false,
      Bool.not_eq_true] at h
    simp at h
    subst h
    simp [nodeListAll]
  · intro ty props options hnf hw hfrag hvoid hbr ih4 r h
    rw [processReactElement] at h
    simp only [dif_neg hnf, hw, hfrag, hvoid, hbr, if_true, if_false,
      Bool.not_eq_true] at h
    simp at h
    simp [← h]
    exact nodeListAll_text_builder _
  · intro ty props options hnf hw hfrag hvoid hbr himg ih4 r h
    rw [processReactElement] at h
    simp only [dif_neg hnf, hw, hfrag, hvoid, hbr, himg, if_true, if_false,
      Bool.not_eq_true] at h
    cases hci : createImageElement ty props options with
    | error e => simp [hci, Except.map] at h
    | ok n =>
      simp [hci, Except.map] at h
      rw [createImageElement] at hci
      split at hci
      · simp at hci
      · simp at hci
        simp [← h, ← hci]
        exact nodeListAll_image_builder _
  · intro ty props options hnf hw hfrag hvoid hbr himg hsvg ih4 r h
    rw [processReactElement] at h
    simp only [dif_neg hnf, hw, hfrag, hvoid, hbr, himg, hsvg, if_true,
      if_false, Bool.not_eq_true] at h
    simp at h
    simp [← h]
    exact nodeListAll_image_builder _
  · intro ty props options hnf hw hfrag hvoid hbr himg hsvg s hts ih4 r h
    rw [processReactElement] at h
    simp only [dif_neg hnf, hw, hfrag, hvoid, hbr, himg, hsvg, hts, if_true,
      if_false, Bool.not_eq_true] at h
    simp at h
    simp [← h]
    exact nodeListAll_text_builder _
  · intro ty props options hnf hw hfrag hvoid hbr himg hsvg hts ih4 ih3 r h
    rw [processReactElement] at h
    simp only [dif_neg hnf, hw, hfrag, hvoid, hbr, himg, hsvg, hts, if_true,
      if_false, Bool.not_eq_true] at h
    cases hcc : collectChildren props options with
    | error e => simp [hcc, bind, Except.bind] at h
    | ok cs =>
      simp [hcc, bind, Except.bind, pure, Except.pure] at h
      simp [← h]
      exact nodeListAll_container_builder cs _ _ _ (ih3 cs hcc)
  · intro props options hk ih r h
    rw [collectChildren] at h
    rw [dif_pos hk] at h
    exact ih r h
  · intro props options hk r h
    rw [collectChildren] at h
    rw [dif_neg hk] at h
    simp at h
    subst h
    simp [nodeListAll]
  · intro props options result ih res hres r hr
    simp [tryHandleComponentWrapper] at hres
    subst hres
    exact ih r hr
  · intro props options result ih res hres r hr
    simp [tryHandleComponentWrapper] at hres
    subst hres
    exact ih r hr
  · intro props options inner hne ih res hres r hr
    rw [tryHandleComponentWrapper] at hres
    all_goals try exact hne
    simp at hres
    subst hres
    exact ih r hr
  · intro ty props options hne1 hne2 res hres
    cases ty with
    | forwardRef result => exact absurd rfl (hne1 result)
    | memo inner => exact absurd rfl (hne2 inner)
    | tag name => simp [tryHandleComponentWrapper] at hres
    | fragmentSym => simp [tryHandleComponentWrapper] at hres
    | otherObj => simp [tryHandleComponentWrapper] at hres
    | fn result => simp [tryHandleComponentWrapper] at hres
  · intro options r h
    simp [collectIterable] at h
    subst h
    simp [nodeListAll]
  · intro options x xs ih1 ih5 r h
    rw [collectIterable] at h
    cases hn : fromJsxInternal x options with
    | error e => simp [hn, bind, Except.bind] at h
    | ok nodes =>
      cases hm : collectIterable xs options with
      | error e => simp [hn, hm, bind, Except.bind] at h
      | ok more =>
        simp [hn, hm, bind, Except.bind, pure, Except.pure] at h
        rw [← h, nodeListAll_append]
        simp [ih1 nodes hn, ih5 more hm]



theorem nodeAll_imp (p q : Node → Bool) (hpq : ∀ n, p n = true → q n = true)
    (n : Node) : nodeAll p n = true → nodeAll q n = true := by
  refine nodeAll.induct p
    (fun n => nodeAll p n = true → nodeAll q n = true)
    (fun l => nodeListAll p l = true → nodeListAll q l = true)
    ?_ ?_ ?_ ?_ n
  · intro cs preset style tw ih h
    simp only [nodeAll, Bool.and_eq_true] at h ⊢
    exact ⟨hpq _ h.1, ih h.2⟩
  · intro m hnc h
    cases m with
    | container c pr st tw =>
      cases c with
      | some cs => exact absurd rfl (hnc cs pr st tw)
      | none =>
        simp only [nodeAll] at h ⊢
        exact hpq _ h
    | text t pr st tw =>
      simp only [nodeAll] at h ⊢
      exact hpq _ h
    | image src w hgt pr st tw =>
      simp only [nodeAll] at h ⊢
      exact hpq _ h
  · intro h
    simp [nodeListAll]
  · intro m rest ih1 ih2 h
    simp only [nodeListAll, Bool.and_eq_true] at h ⊢
    exact ⟨ih1 h.1, ih2 h.2⟩

theorem fromJsx_goodFields (element : JsxValue) (options : Option FromJsxOptions)
    (n : Node) (h : fromJsx element options = .ok n) :
    nodeAll goodFields n = true := by
  unfold fromJsx at h
  cases hint : fromJsxInternal element (resolveOptions options) with
  | error e => simp [hint, bind, Except.bind] at h
  | ok r =>
    have hr := resolver_goodFields element (resolveOptions options) r hint
    rw [hint] at h
    match r, hr with
    | [], _ =>
      simp [bind, Except.bind, pure, Except.pure] at h
      rw [← h]
      exact nodeAll_container_none _ _ _ _ (goodFields_container _)
    | [a], hr =>
      simp [bind, Except.bind, pure, Except.pure] at h
      rw [← h]
      rw [nodeListAll_singleton] at hr
      exact hr
    | a :: b :: rest, hr =>
      simp [bind, Except.bind, pure, Except.pure] at h
      rw [← h]
      exact nodeAll_container_some _ _ _ _ _ (goodFields_container _) hr



/-- C5: on every node of every tree `fromJsx` produces, the `preset` and
`style` fields are present only when the corresponding style map is
non-empty; the preset returned by `extractStyle` depends only on the tag
and the preset table (never on props) and the inline style depends only on
props (never on the table), and the two are carried as distinct fields —
as the concrete `h1` example with both a preset and an inline style
shows. -/
theorem preset_style_nonempty_never_merged :
    (∀ element options n, fromJsx element options = .ok n →
      nodeAll presetStyleFieldsOk n = true) ∧
    (∀ ty props props2 options,
      (extractStyle ty props options).1 = (extractStyle ty props2 options).1) ∧
    (∀ ty props presets1 presets2 twp,
      (extractStyle ty props
        { presets := presets1, tailwindClassesProperty := twp }).2 =
      (extractStyle ty props
        { presets := presets2, tailwindClassesProperty := twp }).2) ∧
    (fromJsx (.elem (.tag "h1") (.obj [("children", .str "Hello"),
        ("style", .obj [("color", .str "red")])])) none =
      .ok (Node.text "Hello"
        (some (.obj [("fontSize", .str "2em"), ("marginTop", .str "0.67em"),
          ("marginBottom", .str "0.67em"), ("fontWeight", .str "bold"),
          ("display", .str "block")]))
        (some (.obj [("color", .str "red")]))
        none)) := by
  refine ⟨?_, ?_, ?_, ?_⟩
  · intro element options n h
    exact nodeAll_imp goodFields presetStyleFieldsOk
      (fun m hm => by simp [goodFields, Bool.and_eq_true] at hm; exact hm.1)
      n (fromJsx_goodFields element options n h)
  · intro ty props props2 options
    simp [extractStyle]
  · intro ty props presets1 presets2 twp
    simp [extractStyle]
  · simp [fromJsx, fromJsxInternal, processReactElement, tryHandleComponentWrapper,
          isFunctionComponent, isReactFragment, isHtmlVoidElement, isHtmlElement,
          tryCollectTextChildren, propsGet, fieldsGet, propsHasKey, fieldsHas,
          extractStyle, extractTw, text, applyPreset, applyStyle, applyTw,
          resolveOptions, getPresets, defaultStylePresets, tableGet, ownKeyCount,
          voidElements, isObjectType, isJsNull, bind, Except.bind, pure, Except.pure]

theorem preset_style_witness :
    nodeAll presetStyleFieldsOk
      (Node.text "hi" (some (.obj [("display", .str "inline")])) none none) = true := by
  have h : fromJsx (.str "hi") none =
      .ok (Node.text "hi" (some (.obj [("display", .str "inline")])) none none) := by
    simp [fromJsx, fromJsxInternal, bind, Except.bind, pure, Except.pure,
          text, applyPreset, applyStyle, applyTw, jsString, presetLookup,
          resolveOptions, getPresets, defaultStylePresets, tableGet, ownKeyCount]
  exact preset_style_nonempty_never_merged.1 (.str "hi") none _ h

/-- C10: on every node of every tree `fromJsx` produces, the `tw` field,
when present, is a non-empty string: an element whose utility-class prop
holds the empty string still makes `extractTw` return the empty string, but
each node builder drops a falsy `tw`, so the resulting node carries no `tw`
field at all. -/
theorem tw_field_nonempty :
    (∀ element options n, fromJsx element options = .ok n →
      nodeAll twFieldOk n = true) ∧
    (∀ props options, propsHasKey props options.tailwindClassesProperty = true →
      propsGet props options.tailwindClassesProperty = .str "" →
      extractTw props options = some "") ∧
    (∀ p : ContainerProps, p.tw = some "" → (container p).tw = none) ∧
    (∀ p : TextProps, p.tw = some "" → (text p).tw = none) ∧
    (∀ p : ImageProps, p.tw = some "" → (image p).tw = none) := by
  refine ⟨?_, ?_, ?_, ?_, ?_⟩
  · intro element options n h
    exact nodeAll_imp goodFields twFieldOk
      (fun m hm => by simp [goodFields, Bool.and_eq_true] at hm; exact hm.2)
      n (fromJsx_goodFields element options n h)
  · intro props options hk hv
    unfold extractTw
    simp [hk, hv]
  · intro p h
    simp [container, Node.tw, applyTw, h]
  · intro p h
    simp [text, Node.tw, applyTw, h]
  · intro p h
    simp [image, Node.tw, applyTw, h]

theorem tw_field_witness :
    nodeAll twFieldOk (Node.text "x" none none none) = true := by
  have h : fromJsx (.elem (.tag "section")
      (.obj [("children", .str "x"), ("tw", .str "")])) none =
      .ok (Node.text "x" none none none) := by
    simp [fromJsx, fromJsxInternal, processReactElement, tryHandleComponentWrapper,
          isFunctionComponent, isReactFragment, isHtmlVoidElement, isHtmlElement,
          tryCollectTextChildren, propsGet, fieldsGet, propsHasKey, fieldsHas,
          extractStyle, extractTw, text, applyPreset, applyStyle, applyTw,
          resolveOptions, getPresets, defaultStylePresets, tableGet, ownKeyCount,
          voidElements, isObjectType, isJsNull, bind, Except.bind, pure, Except.pure]
  exact tw_field_nonempty.1 _ none _ h



theorem fanoutInv_init (xs : List JsxValue) (options : ResolvedFromJsxOptions) :
    FanoutInv xs options (initFanout xs.length) := by
  refine ⟨Nat.zero_le _, List.nodup_nil, ?_, ?_, ?_, ?_⟩
  · intro i hi
    simp [initFanout] at hi
  · simp [initFanout]
  · simp [initFanout]
  · intro i hi
    simp [initFanout, List.getElem?_replicate, hi]

theorem fanoutInv_step (xs : List JsxValue) (options : ResolvedFromJsxOptions)
    (s s' : FanoutState) (hs : FanoutInv xs options s)
    (hstep : FanoutStep xs options s s') : FanoutInv xs options s' := by
  obtain ⟨hadm, hnd, hbnd, hcap, hlen, hslot⟩ := hs
  cases hstep with
  | pull hq hcap' =>
    unfold FanoutInv
    dsimp only
    refine ⟨hq, ?_, ?_, ?_, hlen, ?_⟩
    · exact List.nodup_cons.mpr
        ⟨fun hmem => absurd (hbnd _ hmem) (by omega), hnd⟩
    · intro i hi
      simp at hi
      rcases hi with rfl | hi
      · omega
      · have := hbnd i hi
        omega
    · simpa using hcap'
    · intro i hi
      have h0 := hslot i hi
      rw [h0]
      by_cases he : i = s.admitted
      · subst he
        have h1 : ¬ (s.admitted < s.admitted) := by omega
        have h2 : s.admitted ∉ s.inFlight :=
          fun hc => absurd (hbnd _ hc) (by omega)
        simp [h1, h2, List.mem_cons]
      · by_cases hlt : i < s.admitted
        · have hlt1 : i < s.admitted + 1 := by omega
          by_cases him : i ∈ s.inFlight <;>
            simp [him, hlt, hlt1, he, List.mem_cons]
        · have hlt1 : ¬ i < s.admitted + 1 := by omega
          simp [hlt, hlt1]
  | complete i hi =>
    have hilt : i < s.admitted := hbnd i hi
    have hislots : i < s.slots.length := by omega
    unfold FanoutInv
    dsimp only
    refine ⟨hadm, hnd.erase i, ?_, ?_, ?_, ?_⟩
    · intro j hj
      exact hbnd j (List.mem_of_mem_erase hj)
    · calc (s.inFlight.erase i).length ≤ s.inFlight.length :=
            s.inFlight.length_erase_le i
        _ ≤ _ := hcap
    · simpa [List.length_set] using hlen
    · intro j hj
      by_cases hji : j = i
      · subst hji
        rw [List.getElem?_set_self hislots]
        have hne : j ∉ s.inFlight.erase j := by
          intro hcon
          exact absurd rfl ((List.Nodup.mem_erase_iff hnd).mp hcon).1
        simp [hilt, hne]
      · rw [List.getElem?_set_ne (fun h => hji h.symm)]
        have h0 := hslot j hj
        rw [h0]
        have hmem : j ∈ s.inFlight.erase i ↔ j ∈ s.inFlight := by
          rw [List.Nodup.mem_erase_iff hnd]
          simp [hji]
        simp only [hmem]

theorem fanoutInv_reachable (xs : List JsxValue)
    (options : ResolvedFromJsxOptions) (s : FanoutState)
    (h : FanoutReachable xs options s) : FanoutInv xs options s := by
  induction h with
  | refl => exact fanoutInv_init xs options
  | tail hr hstep ih => exact fanoutInv_step xs options _ _ ih hstep



theorem terminal_slots (xs : List JsxValue) (options : ResolvedFromJsxOptions)
    (s : FanoutState) (hinv : FanoutInv xs options s)
    (hdone : s.admitted = xs.length) (hfl : s.inFlight = []) :
    s.slots = xs.map (fun x => some (fromJsxInternal x options)) := by
  obtain ⟨hadm, hnd, hbnd, hcap, hlen, hslot⟩ := hinv
  apply List.ext_getElem?
  intro i
  by_cases hi : i < xs.length
  · have h0 := hslot i hi
    rw [h0]
    have hcond : i < s.admitted ∧ i ∉ s.inFlight := by
      constructor
      · omega
      · simp [hfl]
    have hgd : xs.getD i JsxValue.undefined = xs[i] := by
      rw [List.getD_eq_getElem?_getD]
      simp [List.getElem?_eq_getElem hi]
    simp [hcond, List.getElem?_map, List.getElem?_eq_getElem hi, hgd]
  · have h1 : s.slots[i]? = none := by
      rw [List.getElem?_eq_none]
      omega
    have h2 : (xs.map (fun x => some (fromJsxInternal x options)))[i]? = none := by
      rw [List.getElem?_eq_none]
      simp
      omega
    rw [h1, h2]

theorem collectIterable_ok_concat (xs : List JsxValue)
    (options : ResolvedFromJsxOptions)
    (hok : ∀ x ∈ xs, ∃ ns, fromJsxInternal x options = .ok ns) :
    collectIterable xs options =
      .ok ((xs.map (fun x => okNodes (fromJsxInternal x options))).flatten) := by
  induction xs with
  | nil => simp [collectIterable]
  | cons x rest ih =>
    obtain ⟨ns, hx⟩ := hok x (List.mem_cons_self x rest)
    rw [collectIterable, hx]
    rw [ih (fun y hy => hok y (List.mem_cons_of_mem x hy))]
    simp [bind, Except.bind, pure, Except.pure, hx, okNodes]

theorem fanoutFlatten_cons (a : Option (Except JsError (List Node)))
    (l : List (Option (Except JsError (List Node)))) :
    fanoutFlatten (a :: l) =
      (match a with
       | some (Except.ok nodes) => nodes ++ fanoutFlatten l
       | _ => fanoutFlatten l) := rfl

theorem fanoutFlatten_map (xs : List JsxValue)
    (options : ResolvedFromJsxOptions) :
    fanoutFlatten (xs.map (fun x => some (fromJsxInternal x options))) =
      (xs.map (fun x => okNodes (fromJsxInternal x options))).flatten := by
  induction xs with
  | nil => simp [fanoutFlatten]
  | cons x rest ih =>
    rw [List.map_cons, fanoutFlatten_cons]
    cases hx : fromJsxInternal x options with
    | ok ns => simp [hx, okNodes, ih]
    | error e => simp [hx, okNodes, ih]

/-- C2: for every finite sequence of elements resolved through the fan-out
and for every completion order of the per-element resolutions (every
reachable terminal schedule of `FanoutStep`), the flattened output list
equals the concatenation of each element resolution in input index order,
and coincides with the denotation `collectIterable`. -/
theorem fanout_order_preservation (xs : List JsxValue)
    (options : ResolvedFromJsxOptions) (s : FanoutState)
    (hreach : FanoutReachable xs options s)
    (hdone : s.admitted = xs.length) (hfl : s.inFlight = [])
    (hok : ∀ x ∈ xs, ∃ ns, fromJsxInternal x options = .ok ns) :
    fanoutFlatten s.slots =
      (xs.map (fun x => okNodes (fromJsxInternal x options))).flatten ∧
    collectIterable xs options = .ok (fanoutFlatten s.slots) := by
  have hinv := fanoutInv_reachable xs options s hreach
  have hslots := terminal_slots xs options s hinv hdone hfl
  constructor
  · rw [hslots]
    exact fanoutFlatten_map xs options
  · rw [hslots, fanoutFlatten_map]
    exact collectIterable_ok_concat xs options hok

/-- C3: during a single sequence fan-out the number of simultaneously
in-flight child resolutions never exceeds
`MAX_CONCURRENT_ITERABLE_RESOLUTION` (8) in any reachable state, and a step
that admits a new element is only possible while the in-flight count is
strictly below the cap.  Each fan-out (nested ones included) runs its own
`FanoutState`, so the counts are independent. -/
theorem fanout_concurrency_bound (xs : List JsxValue)
    (options : ResolvedFromJsxOptions) (s : FanoutState)
    (hreach : FanoutReachable xs options s) :
    s.inFlight.length ≤ MAX_CONCURRENT_ITERABLE_RESOLUTION ∧
    (∀ s', FanoutStep xs options s s' → s'.admitted = s.admitted + 1 →
      s.inFlight.length < MAX_CONCURRENT_ITERABLE_RESOLUTION) := by
  constructor
  · exact (fanoutInv_reachable xs options s hreach).2.2.2.1
  · intro s' hstep hadm
    cases hstep with
    | pull hq hcap => exact hcap
    | complete i hi => simp at hadm



theorem fanout_order_witness :
    collectIterable [JsxValue.str "a", JsxValue.str "b"]
      { presets := none, tailwindClassesProperty := "tw" } =
      .ok [Node.text "a" none none none, Node.text "b" none none none] := by
  have r1 : FanoutStep [JsxValue.str "a", JsxValue.str "b"]
      { presets := none, tailwindClassesProperty := "tw" }
      (initFanout 2)
      { admitted := 1, inFlight := [0], slots := List.replicate 2 none } :=
    FanoutStep.pull _ (by decide) (by decide)
  have r2 : FanoutStep [JsxValue.str "a", JsxValue.str "b"]
      { presets := none, tailwindClassesProperty := "tw" }
      { admitted := 1, inFlight := [0], slots := List.replicate 2 none }
      { admitted := 2, inFlight := [1, 0], slots := List.replicate 2 none } :=
    FanoutStep.pull _ (by decide) (by decide)
  have r3 : FanoutStep [JsxValue.str "a", JsxValue.str "b"]
      { presets := none, tailwindClassesProperty := "tw" }
      { admitted := 2, inFlight := [1, 0], slots := List.replicate 2 none }
      { admitted := 2, inFlight := [0],
        slots := (List.replicate 2 none).set 1
          (some (fromJsxInternal (JsxValue.str "b")
            { presets := none, tailwindClassesProperty := "tw" })) } :=
    FanoutStep.complete _ 1 (by decide)
  have r4 : FanoutStep [JsxValue.str "a", JsxValue.str "b"]
      { presets := none, tailwindClassesProperty := "tw" }
      { admitted := 2, inFlight := [0],
        slots := (List.replicate 2 none).set 1
          (some (fromJsxInternal (JsxValue.str "b")
            { presets := none, tailwindClassesProperty := "tw" })) }
      { admitted := 2, inFlight := [],
        slots := ((List.replicate 2 none).set 1
          (some (fromJsxInternal (JsxValue.str "b")
            { presets := none, tailwindClassesProperty := "tw" }))).set 0
          (some (fromJsxInternal (JsxValue.str "a")
            { presets := none, tailwindClassesProperty := "tw" })) } :=
    FanoutStep.complete _ 0 (by decide)
  have hreach : FanoutReachable [JsxValue.str "a", JsxValue.str "b"]
      { presets := none, tailwindClassesProperty := "tw" }
      { admitted := 2, inFlight := [],
        slots := ((List.replicate 2 none).set 1
          (some (fromJsxInternal (JsxValue.str "b")
            { presets := none, tailwindClassesProperty := "tw" }))).set 0
          (some (fromJsxInternal (JsxValue.str "a")
            { presets := none, tailwindClassesProperty := "tw" })) } :=
    Relation.ReflTransGen.tail
      (Relation.ReflTransGen.tail
        (Relation.ReflTransGen.tail
          (Relation.ReflTransGen.tail Relation.ReflTransGen.refl r1) r2) r3) r4
  have h := fanout_order_preservation [JsxValue.str "a", JsxValue.str "b"]
    { presets := none, tailwindClassesProperty := "tw" } _ hreach rfl rfl
    (by
      intro x hx
      simp at hx
      rcases hx with rfl | rfl
      · exact ⟨[Node.text "a" none none none],
          by simp [fromJsxInternal, text, applyPreset, applyStyle,
            applyTw, presetLookup, jsString]⟩
      · exact ⟨[Node.text "b" none none none],
          by simp [fromJsxInternal, text, applyPreset, applyStyle,
            applyTw, presetLookup, jsString]⟩)
  rw [h.2]
  have ha : fromJsxInternal (JsxValue.str "a")
      { presets := none, tailwindClassesProperty := "tw" } =
      .ok [Node.text "a" none none none] := by
    simp [fromJsxInternal, text, applyPreset, applyStyle, applyTw,
          presetLookup, jsString]
  have hb : fromJsxInternal (JsxValue.str "b")
      { presets := none, tailwindClassesProperty := "tw" } =
      .ok [Node.text "b" none none none] := by
    simp [fromJsxInternal, text, applyPreset, applyStyle, applyTw,
          presetLookup, jsString]
  simp [ha, hb, fanoutFlatten, List.replicate]

theorem fanout_bound_witness :
    (initFanout 0).inFlight.length ≤ MAX_CONCURRENT_ITERABLE_RESOLUTION := by
  exact (fanout_concurrency_bound []
    { presets := none, tailwindClassesProperty := "tw" }
    (initFanout 0) Relation.ReflTransGen.refl).1

end Takumi
